import Mathlib

/-!
# Verification of the firewall_madrigal packet filter

Shallow embedding of the two Rust crates of the repository:

* `firewall-ebpf/src/main.rs` — the XDP packet-decision program
  (`ptr_at`, `try_xdp_firewall`, `xdp_firewall`, `lookup_country`);
* `firewall-cli/src/main.rs` — the control-plane configuration tool
  (`update_config_iface`, `parse_config`).

A packet is modelled as its byte window: a `List Nat` of bytes (the window
`[start, end)` handed to the XDP program, with `start` normalised to `0`
so that `data_end - data = pkt.length`).  Machine `usize` arithmetic is
modelled as `Nat` arithmetic modulo `2^64`.
-/

namespace Firewall

/-- `usize` modulus on the 64-bit targets the program is built for. -/
def USIZE : Nat := 2 ^ 64

/-- `xdp_action::XDP_ABORTED` from the aya bindings. -/
def XDP_ABORTED : Nat := 0

/-- `xdp_action::XDP_DROP` from the aya bindings. -/
def XDP_DROP : Nat := 1

/-- `xdp_action::XDP_PASS` from the aya bindings. -/
def XDP_PASS : Nat := 2

/-- `const ETH_HDR_LEN: usize = 14` -/
def ETH_HDR_LEN : Nat := 14

/-- `const IPV4_HDR_LEN: usize = 20` -/
def IPV4_HDR_LEN : Nat := 20

/-- `mem::size_of::<TcpHdr>()` for `network_types::tcp::TcpHdr` (20 bytes). -/
def TCP_HDR_LEN : Nat := 20

/-- `mem::size_of::<UdpHdr>()` for `network_types::udp::UdpHdr` (8 bytes). -/
def UDP_HDR_LEN : Nat := 8

/-- Byte of the packet at index `i` (reads are always guarded by `ptr_at`,
so the default value is never observed by a successful parse). -/
def byte (pkt : List Nat) (i : Nat) : Nat := pkt.getD i 0

/-- Big-endian 16-bit field starting at byte `i` (the effect of reading the
raw wire bytes and applying `u16::from_be`). -/
def be16 (pkt : List Nat) (i : Nat) : Nat :=
  byte pkt i * 256 + byte pkt (i + 1)

/-- Big-endian 32-bit field starting at byte `i` (the effect of reading the
raw wire bytes and applying `u32::from_be`). -/
def be32 (pkt : List Nat) (i : Nat) : Nat :=
  ((byte pkt i * 256 + byte pkt (i + 1)) * 256 + byte pkt (i + 2)) * 256
    + byte pkt (i + 3)

/-- `EthHdr.ether_type` as the big-endian 16-bit wire value at offset 12;
`EtherType::Ipv4` matches exactly the wire value `0x0800`. -/
def ether_type (pkt : List Nat) : Nat := be16 pkt 12

/-- `Ipv4Hdr.proto`: the protocol byte at offset 9 of the IPv4 header,
i.e. absolute offset 23. -/
def ip_proto (pkt : List Nat) : Nat := byte pkt 23

/-- `IpProto::Tcp` -/
def IPPROTO_TCP : Nat := 6

/-- `IpProto::Udp` -/
def IPPROTO_UDP : Nat := 17

/--
```rust
fn ptr_at<T>(ctx: &XdpContext, offset: usize) -> Result<*const T, ()> {
    let start = ctx.data();
    let end = ctx.data_end();
    let len = mem::size_of::<T>();
    if start + offset + len > end {
        return Err(());
    }
    Ok((start + offset) as *const T)
}
```
`start`/`endp` are the pointers `ctx.data()`/`ctx.data_end()`, `len` is
`mem::size_of::<T>()`.  The `usize` additions wrap modulo `2^64`
(release-profile semantics of the eBPF build). -/
def ptr_at (start endp offset len : Nat) : Except Unit Nat :=
  if (start + offset + len) % USIZE > endp then
    Except.error ()
  else
    Except.ok ((start + offset) % USIZE)

/--
```rust
fn lookup_country(src_ip: u32) -> &'static str {
    let first_octet = (src_ip >> 24) as u8;
    match first_octet { 1 => "US", 2 => "CA", ..., 30 => "TR", _ => "OTHER" }
}
```
`(src_ip >> 24) as u8` is `(src_ip >>> 24) % 256`. -/
def lookup_country (src_ip : Nat) : String :=
  let first_octet := (src_ip >>> 24) % 256
  match first_octet with
  | 1  => "US"
  | 2  => "CA"
  | 3  => "MX"
  | 4  => "BR"
  | 5  => "RU"
  | 6  => "CN"
  | 7  => "IN"
  | 8  => "GB"
  | 9  => "DE"
  | 10 => "FR"
  | 11 => "ES"
  | 12 => "IT"
  | 13 => "AU"
  | 14 => "JP"
  | 15 => "KR"
  | 16 => "SE"
  | 17 => "NO"
  | 18 => "FI"
  | 19 => "DK"
  | 20 => "NL"
  | 21 => "BE"
  | 22 => "CH"
  | 23 => "AT"
  | 24 => "PL"
  | 25 => "CZ"
  | 26 => "SK"
  | 27 => "HU"
  | 28 => "RO"
  | 29 => "BG"
  | 30 => "TR"
  | _  => "OTHER"

/--
```rust
fn try_xdp_firewall(ctx: XdpContext) -> Result<u32, ()> { ... }
```
The packet window is `[0, pkt.length)`.  Logging (`info!`) has no effect on
the verdict and is omitted.  The `lookup_country` call of the source is kept
(its result is only logged, never used for the verdict). -/
def try_xdp_firewall (pkt : List Nat) : Except Unit Nat := do
  let _ethhdr ← ptr_at 0 pkt.length 0 ETH_HDR_LEN
  -- `match (*ethhdr).ether_type { EtherType::Ipv4 => {}, _ => return Ok(XDP_PASS) }`
  if ether_type pkt = 0x0800 then pure () else return XDP_PASS
  let _ipv4hdr ← ptr_at 0 pkt.length ETH_HDR_LEN IPV4_HDR_LEN
  let src_ip := be32 pkt 26
  let _dst_ip := be32 pkt 30
  let _country := lookup_country src_ip
  let source_port ←
    if ip_proto pkt = IPPROTO_TCP then do
      let _tcphdr ← ptr_at 0 pkt.length (ETH_HDR_LEN + IPV4_HDR_LEN) TCP_HDR_LEN
      pure (be16 pkt (ETH_HDR_LEN + IPV4_HDR_LEN))
    else if ip_proto pkt = IPPROTO_UDP then do
      let _udphdr ← ptr_at 0 pkt.length (ETH_HDR_LEN + IPV4_HDR_LEN) UDP_HDR_LEN
      pure (be16 pkt (ETH_HDR_LEN + IPV4_HDR_LEN))
    else
      return XDP_DROP
  let ALLOWED_HTTP : Nat := 80
  let ALLOWED_HTTPS : Nat := 443
  if source_port = ALLOWED_HTTP ∨ source_port = ALLOWED_HTTPS ∨ source_port = 53 then
    return XDP_PASS
  else
    return XDP_DROP

/--
```rust
pub fn xdp_firewall(ctx: XdpContext) -> u32 {
    match try_xdp_firewall(ctx) {
        Ok(ret) => ret,
        Err(_) => xdp_action::XDP_ABORTED,
    }
}
```
-/
def xdp_firewall (pkt : List Nat) : Nat :=
  match try_xdp_firewall pkt with
  | Except.ok ret => ret
  | Except.error _ => XDP_ABORTED

/-- The hardcoded allow-list test of the source:
`source_port == ALLOWED_HTTP || source_port == ALLOWED_HTTPS || source_port == 53`. -/
def port_allowed (p : Nat) : Prop := p = 80 ∨ p = 443 ∨ p = 53

instance (p : Nat) : Decidable (port_allowed p) := by
  unfold port_allowed; infer_instance

/-- A buffer that parses all the way to the transport source port: IPv4
ethertype, protocol TCP or UDP, and long enough for the Ethernet, IPv4 and
transport headers demanded by the three `ptr_at` calls. -/
def wellformed_tcp_udp (pkt : List Nat) : Prop :=
  ether_type pkt = 0x0800 ∧
    ((ip_proto pkt = IPPROTO_TCP ∧ 54 ≤ pkt.length) ∨
      (ip_proto pkt = IPPROTO_UDP ∧ 42 ≤ pkt.length))

instance (pkt : List Nat) : Decidable (wellformed_tcp_udp pkt) := by
  unfold wellformed_tcp_udp; infer_instance

/-- Concrete test frame: Ethernet (ethertype IPv4) / IPv4 (given protocol,
given source address, destination 10.0.0.1) / transport header starting with
the given big-endian source port, padded to the requested tail length. -/
def mk_packet (proto : Nat) (src : List Nat) (sport : Nat) (padding : Nat) :
    List Nat :=
  List.replicate 12 0 ++ [0x08, 0x00]
    ++ [0x45, 0, 0, 40, 0, 0, 0, 0, 64, proto, 0, 0]
    ++ src ++ [10, 0, 0, 1]
    ++ [sport / 256, sport % 256]
    ++ List.replicate padding 0

/-- The rule snapshot of the spec's data model: allowed ports, blocked
source addresses, blocked country codes. -/
structure PolicyRuleSet where
  allowed_ports : List Nat
  blocked_ips : List Nat
  blocked_countries : List String

/-- Modelled from the spec: the Policy Engine decision precedence of §4.3 —
"(a) if source address matches the blocked-address set → Drop; (b) else if
derived country matches the blocked-country set → Drop; (c) else if source
port is in the allowed-port set → Pass; (d) else → Drop".  No code under
`src/` implements this chain: the eBPF decision path receives no rule
snapshot at all, so the chain is written here from the spec's words to be
compared with the code's behaviour. -/
def policy_decision (rules : PolicyRuleSet) (src_ip source_port : Nat) : Nat :=
  if rules.blocked_ips.contains src_ip then XDP_DROP
  else if rules.blocked_countries.contains (lookup_country src_ip) then XDP_DROP
  else if rules.allowed_ports.contains source_port then XDP_PASS
  else XDP_DROP

/-- The first octets mapped by `lookup_country`'s fixed table (its match arms
other than the default). -/
def mapped_octets : List Nat :=
  [1, 2, 3, 4, 5, 6, 7, 8, 9, 10, 11, 12, 13, 14, 15,
   16, 17, 18, 19, 20, 21, 22, 23, 24, 25, 26, 27, 28, 29, 30]

/-!
## The control-plane tool (`firewall-cli/src/main.rs`)

The configuration file is modelled as its list of lines: `fs::read_to_string`
followed by `content.lines()` on one side and `lines.join("\n")` followed by
`fs::write` on the other are inverse on newline-free lines, so
`update_config_iface` and `parse_config` are embedded directly at the level
of the line list their Rust bodies operate on.
-/

/-- Rust `str::trim`: remove leading and trailing whitespace. -/
def rust_trim (s : String) : String :=
  ⟨((s.data.dropWhile Char.isWhitespace).reverse.dropWhile
      Char.isWhitespace).reverse⟩

/-- Rust `str::trim_matches('"')`: remove every leading and trailing `"`. -/
def trim_quotes (s : String) : String :=
  ⟨((s.data.dropWhile (fun c => c = '"')).reverse.dropWhile
      (fun c => c = '"')).reverse⟩

/-- The `for i in 0..lines.len()` loop of `update_config_iface`: find the
first line trimming to `"iface"` that has a successor line, overwrite that
successor with the new interface, and report whether this happened
(`found_iface`). -/
def replace_iface_value (new_iface : String) : List String → List String × Bool
  | [] => ([], false)
  | [l] => ([l], false)
  | l :: l2 :: rest =>
    if rust_trim l = "\"iface\"" then (l :: new_iface :: rest, true)
    else
      let r := replace_iface_value new_iface (l2 :: rest)
      (l :: r.1, r.2)

/--
```rust
fn update_config_iface(new_iface: &str) { ... }
```
Reads `config.cfg` as lines, rewrites the value line of the `"iface"` key
(appending the key if it was never rewritten), then appends each of the
three remaining keys with its default value when no line trims to it, and
writes the lines back. -/
def update_config_iface (lines : List String) (new_iface : String) :
    List String :=
  let r := replace_iface_value new_iface lines
  let ls2 := if r.2 then r.1 else r.1 ++ ["\"iface\"", new_iface]
  let ls3 :=
    if ls2.any (fun l => rust_trim l == "\"allowed-ports\"") then ls2
    else ls2 ++ ["\"allowed-ports\"", "80, 443"]
  let ls4 :=
    if ls3.any (fun l => rust_trim l == "\"blocked-ips\"") then ls3
    else ls3 ++ ["\"blocked-ips\"", ""]
  if ls4.any (fun l => rust_trim l == "\"blocked-countries\"") then ls4
  else ls4 ++ ["\"blocked-countries\"", ""]

/--
```rust
fn parse_config(path: &str) -> HashMap<String, String> { ... }
```
Walks the lines two at a time: `key = lines[i].trim().trim_matches('"')`,
`value = lines[i + 1].trim()`; a trailing line without a successor is
skipped.  The insertion order is kept; `cfg_get` below reproduces the
`HashMap` overwrite semantics (the last insertion for a key wins). -/
def parse_config : List String → List (String × String)
  | k :: v :: rest => (trim_quotes (rust_trim k), rust_trim v) :: parse_config rest
  | _ => []

/-- `HashMap::get` on the association list built by `parse_config`: the last
inserted binding of the key. -/
def cfg_get (m : List (String × String)) (key : String) : Option String :=
  (m.reverse.find? (fun p => p.1 == key)).map Prod.snd

/-- The four quoted key lines of the configuration file format (§6 of the
spec: keys `iface`, `allowed-ports`, `blocked-ips`, `blocked-countries`). -/
def config_keys : List String :=
  ["\"iface\"", "\"allowed-ports\"", "\"blocked-ips\"", "\"blocked-countries\""]

/-- Well-formed configuration file in the sense of §6: alternating key and
value lines, every key line trims to one of the four quoted keys, no value
line looks like a key line, and no key recurs later in the file. -/
def wf_config : List String → Bool
  | [] => true
  | [_] => false
  | k :: v :: rest =>
    config_keys.contains (rust_trim k) &&
      !config_keys.contains (rust_trim v) &&
      !rest.any (fun l => rust_trim l == rust_trim k) &&
      wf_config rest

/-- Number of lines of the file trimming to the quoted key `q`. -/
def key_count (q : String) (lines : List String) : Nat :=
  (lines.filter (fun l => rust_trim l == q)).length

/-- Rule snapshot used to exhibit the gap between the spec's precedence chain
and the code: source 1.2.3.4 is in the blocked-address set. -/
def c2_rules : PolicyRuleSet :=
  { allowed_ports := [80, 443]
    blocked_ips := [0x01020304]
    blocked_countries := [] }

/-!
## Theorems
-/

theorem except_bind_ite {α β : Type} (c : Prop) [Decidable c]
    (a b : Except Unit α) (f : α → Except Unit β) :
    Except.bind (if c then a else b) f
      = if c then Except.bind a f else Except.bind b f :=
  apply_ite (fun x => Except.bind x f) c a b

theorem except_bind_ok {α β : Type} (x : α) (f : α → Except Unit β) :
    Except.bind (Except.ok x) f = f x := rfl

theorem except_bind_error {α β : Type} (f : α → Except Unit β) :
    Except.bind (Except.error (ε := Unit) ()) f = Except.error () := rfl

/-- Closed form of `try_xdp_firewall`: the nested bounds checks, the
ethertype test, the protocol dispatch and the final port test, in the order
the source performs them. -/
theorem try_xdp_firewall_eq (pkt : List Nat) :
    try_xdp_firewall pkt =
      if pkt.length < 14 then Except.error ()
      else if ether_type pkt ≠ 0x0800 then Except.ok XDP_PASS
      else if pkt.length < 34 then Except.error ()
      else if ip_proto pkt = IPPROTO_TCP then
        (if pkt.length < 54 then Except.error ()
         else if port_allowed (be16 pkt 34) then Except.ok XDP_PASS
         else Except.ok XDP_DROP)
      else if ip_proto pkt = IPPROTO_UDP then
        (if pkt.length < 42 then Except.error ()
         else if port_allowed (be16 pkt 34) then Except.ok XDP_PASS
         else Except.ok XDP_DROP)
      else Except.ok XDP_DROP := by
  have hm : ∀ n : Nat, n ≤ 54 → n % USIZE = n := by
    intro n hn
    exact Nat.mod_eq_of_lt (lt_of_le_of_lt hn (by norm_num [USIZE]))
  unfold try_xdp_firewall ptr_at
  simp only [ETH_HDR_LEN, IPV4_HDR_LEN, TCP_HDR_LEN, UDP_HDR_LEN,
    IPPROTO_TCP, IPPROTO_UDP, Nat.zero_add, Nat.add_zero, Nat.reduceAdd,
    hm 14 (by norm_num), hm 34 (by norm_num), hm 54 (by norm_num),
    hm 42 (by norm_num), port_allowed, gt_iff_lt, bind,
    except_bind_ite, except_bind_ok, except_bind_error, ite_not, pure]
  rfl

/-- On packets that parse all the way to the transport source port the
verdict is decided by the hardcoded allow-list test alone. -/
theorem xdp_firewall_wf (pkt : List Nat) (h : wellformed_tcp_udp pkt) :
    xdp_firewall pkt =
      if port_allowed (be16 pkt 34) then XDP_PASS else XDP_DROP := by
  obtain ⟨het, hpr⟩ := h
  unfold xdp_firewall
  rw [try_xdp_firewall_eq]
  rcases hpr with ⟨hp, hl⟩ | ⟨hp, hl⟩ <;>
    [skip;
     have hne : ip_proto pkt ≠ IPPROTO_TCP := by
       rw [hp]; unfold IPPROTO_TCP IPPROTO_UDP; omega] <;>
    rw [if_neg (by omega), if_neg (not_not_intro het), if_neg (by omega)] <;>
    [rw [if_pos hp, if_neg (by omega)];
     rw [if_neg hne, if_pos hp, if_neg (by omega)]] <;>
    by_cases hpa : port_allowed (be16 pkt 34) <;>
    simp only [hpa, if_true, if_false, ite_true, ite_false]

/-- C1: evaluation of the decision function at the failing input.  The
54-byte frame Ethernet(IPv4)/IPv4(src 1.2.3.4, proto TCP)/TCP(source port
53) is well formed and its source port 53 is outside the allow-list 80/443
that the spec (and the source's own comment naming HTTP/HTTPS) configures,
yet the verdict is Pass, not the Drop the claim requires: the extra
`source_port == 53` disjunct of the source admits it. -/
theorem C1_port53_passes :
    wellformed_tcp_udp (mk_packet 6 [1, 2, 3, 4] 53 18) ∧
      be16 (mk_packet 6 [1, 2, 3, 4] 53 18) 34 = 53 ∧
      ((53 : Nat) ≠ 80 ∧ (53 : Nat) ≠ 443) ∧
      xdp_firewall (mk_packet 6 [1, 2, 3, 4] 53 18) = XDP_PASS := by
  refine ⟨by decide, by decide, ⟨by decide, by decide⟩, by decide⟩

/-- C2, counterexample: the claim's precedence chain is violated by the
code.  The well-formed TCP frame from source 1.2.3.4 port 80, with 1.2.3.4
in the blocked-address set of the rule snapshot `c2_rules`, must be dropped
by the claimed chain (`policy_decision` says Drop), but the decision
function passes it: the eBPF path never consults any block set. -/
theorem C2_blocked_source_passes :
    policy_decision c2_rules 0x01020304 80 = XDP_DROP ∧
      be32 (mk_packet 6 [1, 2, 3, 4] 80 18) 26 = 0x01020304 ∧
      wellformed_tcp_udp (mk_packet 6 [1, 2, 3, 4] 80 18) ∧
      xdp_firewall (mk_packet 6 [1, 2, 3, 4] 80 18) = XDP_PASS := by
  refine ⟨by decide, by decide, by decide, by decide⟩

/-- C2 (amended): the decision path consults no blocked-address or
blocked-country set; for every well-formed Ethernet+IPv4 packet carrying
TCP or UDP the verdict is Pass exactly when the source port is in the
hardcoded allow-list {80, 443, 53} and Drop otherwise, whatever the source
address and derived country are. -/
theorem C2_verdict_ignores_blocklists :
    ∀ pkt : List Nat, wellformed_tcp_udp pkt →
      xdp_firewall pkt =
        if port_allowed (be16 pkt 34) then XDP_PASS else XDP_DROP :=
  fun pkt h => xdp_firewall_wf pkt h

/-- Witness for C2 (amended) at a concrete UDP packet with source port 22. -/
theorem C2_witness :
    xdp_firewall (mk_packet 17 [1, 2, 3, 4] 22 6) = XDP_DROP := by
  rw [C2_verdict_ignores_blocklists _ (by decide)]; decide

/-- C3, counterexample: the bounds check is not overflow-safe as claimed.
With `start = end = 1` (an empty buffer, zero bytes remaining) and
`offset = 2^64 - 2`, `size(T) = 1`, the sum `start + offset + len` wraps to
`0`, the check `> end` fails, and `ptr_at` returns a pointer instead of
`OutOfBounds` although `offset + size(T)` vastly exceeds the remaining
space. -/
theorem C3_wrapping_check_passes :
    1 - 1 < (USIZE - 2) + 1 ∧
      ptr_at 1 1 (USIZE - 2) 1 = Except.ok (USIZE - 1) := by
  constructor
  · unfold USIZE; norm_num
  · unfold ptr_at
    rw [if_neg]
    · have h1 : 1 + (USIZE - 2) = USIZE - 1 := by unfold USIZE; omega
      rw [h1, Nat.mod_eq_of_lt (by unfold USIZE; omega)]
    · have h2 : 1 + (USIZE - 2) + 1 = USIZE := by unfold USIZE; omega
      rw [h2, Nat.mod_self]
      omega

/-- C3 (amended): whenever the sum `start + offset + size(T)` does not wrap
(stays below `2^64`), `ptr_at` fails with `OutOfBounds` exactly when
`offset + size(T)` exceeds the space `end - start` remaining in the
buffer. -/
theorem C3_bounds_check_exact (start endp offset len : Nat)
    (hse : start ≤ endp) (hno : start + offset + len < USIZE) :
    ptr_at start endp offset len = Except.error () ↔
      endp - start < offset + len := by
  unfold ptr_at
  rw [Nat.mod_eq_of_lt hno]
  by_cases h : start + offset + len > endp
  · simp only [h, if_true, ite_true, true_iff]
    omega
  · simp only [h, if_false, ite_false, false_iff]
    constructor
    · intro hco
      exact absurd hco (by simp)
    · omega

/-- Witness for C3 (amended): a 10-byte buffer rejects a 4-byte read at
offset 8. -/
theorem C3_witness : ptr_at 0 10 8 4 = Except.error () :=
  (C3_bounds_check_exact 0 10 8 4 (by decide) (by norm_num [USIZE])).mpr
    (by decide)

/-- C4: the decision function is total — every byte sequence yields one of
the three verdicts — and every parse failure of `try_xdp_firewall`
short-circuits the decision to Abort. -/
theorem C4_total_verdict :
    ∀ pkt : List Nat,
      (xdp_firewall pkt = XDP_PASS ∨ xdp_firewall pkt = XDP_DROP ∨
        xdp_firewall pkt = XDP_ABORTED) ∧
      (try_xdp_firewall pkt = Except.error () →
        xdp_firewall pkt = XDP_ABORTED) := by
  intro pkt
  constructor
  · unfold xdp_firewall
    rw [try_xdp_firewall_eq]
    split_ifs <;> simp
  · intro h
    unfold xdp_firewall
    rw [h]

/-- Witness for C4 at the empty buffer, whose parse fails. -/
theorem C4_witness : xdp_firewall [] = XDP_ABORTED :=
  (C4_total_verdict []).2 rfl

/-- C6: every buffer shorter than the 14-byte Ethernet header is Aborted. -/
theorem C6_short_buffer_aborts :
    ∀ pkt : List Nat, pkt.length < 14 → xdp_firewall pkt = XDP_ABORTED := by
  intro pkt h
  unfold xdp_firewall
  rw [try_xdp_firewall_eq, if_pos h]

/-- Witness for C6 at a 3-byte buffer. -/
theorem C6_witness : xdp_firewall [0, 1, 2] = XDP_ABORTED :=
  C6_short_buffer_aborts [0, 1, 2] (by decide)

/-- C7: every buffer with a complete Ethernet header and a non-IPv4
ethertype is Passed, whatever the bytes after the Ethernet header are. -/
theorem C7_non_ipv4_passes :
    ∀ pkt : List Nat, 14 ≤ pkt.length → ether_type pkt ≠ 0x0800 →
      xdp_firewall pkt = XDP_PASS := by
  intro pkt hl he
  unfold xdp_firewall
  rw [try_xdp_firewall_eq, if_neg (by omega), if_pos he]

/-- Witness for C7 at a 17-byte frame with ethertype 0. -/
theorem C7_witness :
    xdp_firewall (List.replicate 14 0 ++ [7, 7, 7]) = XDP_PASS :=
  C7_non_ipv4_passes _ (by decide) (by decide)

/-- C8: an IPv4 frame with complete Ethernet and IPv4 headers whose
protocol is neither TCP nor UDP is Dropped (not Aborted). -/
theorem C8_unsupported_protocol_drops :
    ∀ pkt : List Nat, 34 ≤ pkt.length → ether_type pkt = 0x0800 →
      ip_proto pkt ≠ IPPROTO_TCP → ip_proto pkt ≠ IPPROTO_UDP →
      xdp_firewall pkt = XDP_DROP := by
  intro pkt hl he h6 h17
  unfold xdp_firewall
  rw [try_xdp_firewall_eq, if_neg (by omega), if_neg (not_not_intro he),
    if_neg (by omega), if_neg h6, if_neg h17]

/-- Witness for C8 at a 36-byte ICMP (protocol 1) frame. -/
theorem C8_witness : xdp_firewall (mk_packet 1 [1, 2, 3, 4] 0 0) = XDP_DROP :=
  C8_unsupported_protocol_drops _ (by decide) (by decide) (by decide)
    (by decide)

/-- `lookup_country` depends only on the first octet of its argument. -/
theorem lookup_country_congr (ip₁ ip₂ : Nat)
    (h : (ip₁ >>> 24) % 256 = (ip₂ >>> 24) % 256) :
    lookup_country ip₁ = lookup_country ip₂ := by
  unfold lookup_country
  rw [h]

set_option maxRecDepth 4096 in
/-- C9: the country lookup is total over 32-bit addresses: a first octet in
the fixed table (octets 1–30) yields that table's 2-letter code, and every
other octet yields the default `"OTHER"`. -/
theorem C9_lookup_country_total :
    ∀ src_ip : Nat, src_ip < 2 ^ 32 →
      ((src_ip >>> 24) ∈ mapped_octets → (lookup_country src_ip).length = 2) ∧
      ((src_ip >>> 24) ∉ mapped_octets → lookup_country src_ip = "OTHER") := by
  intro ip hip
  have h8 : ip >>> 24 < 256 := by
    rw [Nat.shiftRight_eq_div_pow]
    omega
  have hoct : ((ip >>> 24) <<< 24) >>> 24 % 256 = (ip >>> 24) % 256 := by
    rw [Nat.shiftLeft_eq, Nat.shiftRight_eq_div_pow,
      Nat.mul_div_cancel _ (by positivity)]
  have hcongr := lookup_country_congr ip ((ip >>> 24) <<< 24) hoct.symm
  rw [hcongr]
  have key : ∀ o : Nat, o < 256 →
      ((o ∈ mapped_octets → (lookup_country (o <<< 24)).length = 2) ∧
       (o ∉ mapped_octets → lookup_country (o <<< 24) = "OTHER")) := by decide
  exact key (ip >>> 24) h8

/-- Witness for C9 at the mapped octet 5 and the unmapped octet 255. -/
theorem C9_witness :
    (lookup_country 0x05060708).length = 2 ∧
      lookup_country 0xFF000000 = "OTHER" :=
  ⟨(C9_lookup_country_total 0x05060708 (by norm_num)).1 (by decide),
   (C9_lookup_country_total 0xFF000000 (by norm_num)).2 (by decide)⟩

/-- C10: noninterference of addresses — two well-formed TCP/UDP packets
agreeing on the ethertype, the IPv4 protocol field and the two transport
source-port bytes receive the same verdict, whatever their source and
destination addresses (and hence derived countries) are. -/
theorem C10_verdict_ignores_addresses :
    ∀ p₁ p₂ : List Nat, wellformed_tcp_udp p₁ → wellformed_tcp_udp p₂ →
      ether_type p₁ = ether_type p₂ → ip_proto p₁ = ip_proto p₂ →
      byte p₁ 34 = byte p₂ 34 → byte p₁ 35 = byte p₂ 35 →
      xdp_firewall p₁ = xdp_firewall p₂ := by
  intro p₁ p₂ h₁ h₂ _ _ h34 h35
  rw [xdp_firewall_wf p₁ h₁, xdp_firewall_wf p₂ h₂]
  have hbe : be16 p₁ 34 = be16 p₂ 34 := by
    unfold be16
    norm_num [h34, h35]
  rw [hbe]

/-- Witness for C10: same port, different source addresses (octet 1 maps to
"US", octet 200 to "OTHER"), equal verdicts. -/
theorem C10_witness :
    xdp_firewall (mk_packet 6 [1, 2, 3, 4] 80 18) =
      xdp_firewall (mk_packet 6 [200, 9, 9, 9] 80 18) :=
  C10_verdict_ignores_addresses _ _ (by decide) (by decide) (by decide)
    (by decide) (by decide) (by decide)



/-- Two-lines-at-a-time induction on the line list, following the recursion
shape of `parse_config` and `wf_config`. -/
theorem config_lines_induction (P : List String → Prop) (h0 : P [])
    (h1 : ∀ l, P [l]) (h2 : ∀ k v rest, P rest → P (k :: v :: rest)) :
    ∀ L, P L := by
  have key : ∀ n L, List.length L ≤ n → P L := by
    intro n
    induction n with
    | zero =>
      intro L h
      rcases L with _ | ⟨k, rest⟩
      · exact h0
      · simp at h
    | succ n ih =>
      intro L h
      rcases L with _ | ⟨k, _ | ⟨v, rest⟩⟩
      · exact h0
      · exact h1 k
      · exact h2 k v rest (ih rest (by simp at h; omega))
  exact fun L => key L.length L le_rfl

/-- Unfolding of `wf_config` on a key/value pair. -/
theorem wf_config_cons {k v : String} {rest : List String}
    (h : wf_config (k :: v :: rest) = true) :
    config_keys.contains (rust_trim k) = true ∧
      config_keys.contains (rust_trim v) = false ∧
      rest.any (fun l => rust_trim l == rust_trim k) = false ∧
      wf_config rest = true := by
  simp only [wf_config, Bool.and_eq_true, Bool.not_eq_true'] at h
  exact ⟨h.1.1.1, h.1.1.2, h.1.2, h.2⟩

/-- A well-formed file has an even number of lines. -/
theorem wf_config_even : ∀ L : List String, wf_config L = true →
    L.length % 2 = 0 := by
  refine config_lines_induction _ (by simp) (by simp [wf_config]) ?_
  intro k v rest ih h
  have hr := ih (wf_config_cons h).2.2.2
  simp only [List.length_cons]
  omega

/-- `parse_config` distributes over an append at an even offset. -/
theorem parse_config_append : ∀ A B : List String, A.length % 2 = 0 →
    parse_config (A ++ B) = parse_config A ++ parse_config B := by
  refine config_lines_induction _ (by simp [parse_config]) ?_ ?_
  · intro l B h
    simp at h
  · intro k v rest ih B h
    simp only [List.length_cons] at h
    simp only [List.cons_append, parse_config, List.append_eq]
    rw [ih B (by omega)]



/-- `cfg_get` after appending one binding: the appended binding wins
(`HashMap` overwrite — the last insertion for a key is returned). -/
theorem cfg_get_append_single (N : List (String × String)) (kk vv key : String) :
    cfg_get (N ++ [(kk, vv)]) key =
      if kk == key then some vv else cfg_get N key := by
  unfold cfg_get
  rw [List.reverse_append]
  simp only [List.reverse_cons, List.reverse_nil, List.nil_append,
    List.singleton_append, List.find?]
  by_cases h : kk == key
  · simp [h]
  · simp only [h]
    rfl

/-- `cfg_get` on a binding pushed in front: it only answers when the rest
has no binding for the key. -/
theorem cfg_get_cons (x : String × String) (N : List (String × String))
    (key : String) :
    cfg_get (x :: N) key =
      ((cfg_get N key).or (if x.1 == key then some x.2 else none)) := by
  unfold cfg_get
  rw [List.reverse_cons, List.find?_append]
  by_cases h : x.1 == key <;>
    simp only [List.find?, h, if_true, if_false] <;>
    cases hf : (N.reverse.find? fun p => p.1 == key) <;>
    simp [hf]

/-- Lines counted by `key_count` split over appends. -/
theorem key_count_append (q : String) (A B : List String) :
    key_count q (A ++ B) = key_count q A + key_count q B := by
  unfold key_count
  rw [List.filter_append, List.length_append]

/-- A key is absent (`any` false) exactly when its count is zero. -/
theorem key_count_eq_zero (q : String) (L : List String) :
    key_count q L = 0 ↔ L.any (fun l => rust_trim l == q) = false := by
  unfold key_count
  rw [List.length_eq_zero, List.filter_eq_nil_iff]
  simp [List.any_eq_true]

/-- In a well-formed file no key occurs on more than one line. -/
theorem wf_config_key_count_le_one :
    ∀ L, wf_config L = true → ∀ q, config_keys.contains q = true →
      key_count q L ≤ 1 := by
  refine config_lines_induction _ (by intro _ _ _; simp [key_count]) ?_ ?_
  · intro l h
    simp [wf_config] at h
  · intro k v rest ih h q hq
    obtain ⟨hk, hv, hnr, hwf⟩ := wf_config_cons h
    have hrest := ih hwf q hq
    unfold key_count
    by_cases hkq : rust_trim k == q
    · -- the head is the key line: the rest cannot contain it again
      have hkq' : rust_trim k = q := by simpa using hkq
      have hzero : key_count q rest = 0 := by
        rw [key_count_eq_zero]
        rw [hkq'] at hnr
        exact hnr
      have hvq : (rust_trim v == q) = false := by
        simp only [beq_eq_false_iff_ne, ne_eq]
        intro hcon
        rw [hcon] at hv
        rw [hv] at hq
        cases hq
      simp only [List.filter_cons, hkq, hvq, if_true, if_false]
      unfold key_count at hzero
      simp [hzero]
  -- the head is not the key line
    · have hvq : (rust_trim v == q) = false := by
        simp only [beq_eq_false_iff_ne, ne_eq]
        intro hcon
        rw [hcon] at hv
        rw [hv] at hq
        cases hq
      simp only [List.filter_cons, hkq, hvq]
      simp only [Bool.false_eq_true, if_false]
      exact hrest



/-- Membership in the four configuration keys, as an explicit case split. -/
theorem mem_config_keys {s : String} (h : config_keys.contains s = true) :
    s = "\"iface\"" ∨ s = "\"allowed-ports\"" ∨ s = "\"blocked-ips\"" ∨
      s = "\"blocked-countries\"" := by
  simp only [config_keys, List.contains_cons, List.contains_nil,
    Bool.or_eq_true, beq_iff_eq] at h
  tauto

/-- Stripping the quotes is injective on the four configuration keys. -/
theorem config_norm_inj {a b : String} (ha : config_keys.contains a = true)
    (hb : config_keys.contains b = true) (hne : a ≠ b) :
    trim_quotes a ≠ trim_quotes b := by
  rcases mem_config_keys ha with rfl | rfl | rfl | rfl <;>
    rcases mem_config_keys hb with rfl | rfl | rfl | rfl <;>
    first
      | exact absurd rfl hne
      | decide

/-- `replace_iface_value` keeps the number of lines. -/
theorem replace_iface_value_length (X : String) :
    ∀ L, (replace_iface_value X L).1.length = L.length := by
  refine config_lines_induction _ (by simp [replace_iface_value]) ?_ ?_
  · intro l
    simp [replace_iface_value]
  · intro k v rest ih
    unfold replace_iface_value
    by_cases hk : rust_trim k = "\"iface\""
    · simp [hk]
    · simp only [hk, if_false]
      have step := ih
      rcases rest with _ | ⟨r1, rs⟩
      · simp [replace_iface_value]
      · simp only [replace_iface_value, List.length_cons] at step ⊢
        by_cases hv : rust_trim v = "\"iface\""
        · simp [hv]
        · simp only [hv, if_false, List.length_cons] at step ⊢
          omega

/-- On a pair whose two lines are not the `"iface"` key, the scan steps
over the whole pair. -/
theorem replace_iface_value_step (X k v : String) (rest : List String)
    (hk : rust_trim k ≠ "\"iface\"") (hv : rust_trim v ≠ "\"iface\"") :
    replace_iface_value X (k :: v :: rest) =
      (k :: v :: (replace_iface_value X rest).1,
        (replace_iface_value X rest).2) := by
  rcases rest with _ | ⟨r1, rs⟩
  · simp [replace_iface_value, hk, hv]
  · simp [replace_iface_value, hk, hv]

/-- When no line trims to the `"iface"` key the scan is the identity. -/
theorem replace_iface_value_not_found (X : String) :
    ∀ L, L.any (fun l => rust_trim l == "\"iface\"") = false →
      replace_iface_value X L = (L, false) := by
  refine config_lines_induction _ (by simp [replace_iface_value]) ?_ ?_
  · intro l h
    simp [replace_iface_value]
  · intro k v rest ih h
    simp only [List.any_cons, Bool.or_eq_false_iff, beq_eq_false_iff_ne,
      ne_eq] at h
    obtain ⟨hk, hv, hrest⟩ := h
    rw [replace_iface_value_step X k v rest hk hv]
    rw [ih hrest]



/-- In a well-formed file with no line for key `q`, parsing yields no
binding for the stripped form of `q`. -/
theorem cfg_get_parse_absent (q : String) (hq : config_keys.contains q = true) :
    ∀ L, wf_config L = true → L.any (fun l => rust_trim l == q) = false →
      cfg_get (parse_config L) (trim_quotes q) = none := by
  refine config_lines_induction _ (by intro _ _; rfl) ?_ ?_
  · intro l h
    simp [wf_config] at h
  · intro k v rest ih h habs
    obtain ⟨hk, hv, hnr, hwf⟩ := wf_config_cons h
    simp only [List.any_cons, Bool.or_eq_false_iff] at habs
    obtain ⟨hkq, hvq, hrest⟩ := habs
    simp only [parse_config]
    rw [cfg_get_cons _ _ _, ih hwf hrest]
    have hne : trim_quotes (rust_trim k) ≠ trim_quotes q := by
      refine config_norm_inj hk hq ?_
      simpa using hkq
    simp [hne]

/-- On a well-formed file containing the `"iface"` key, the scan reports
success and parsing the rewritten file binds `iface` to the (trimmed) new
value. -/
theorem replace_iface_value_found (X : String) :
    ∀ L, wf_config L = true →
      L.any (fun l => rust_trim l == "\"iface\"") = true →
      (replace_iface_value X L).2 = true ∧
      cfg_get (parse_config (replace_iface_value X L).1) "iface"
        = some (rust_trim X) := by
  refine config_lines_induction _ (by intro _ h; simp at h) ?_ ?_
  · intro l h
    simp [wf_config] at h
  · intro k v rest ih h hany
    obtain ⟨hk, hv, hnr, hwf⟩ := wf_config_cons h
    by_cases hkq : rust_trim k = "\"iface\""
    · have hrepl : replace_iface_value X (k :: v :: rest)
          = (k :: X :: rest, true) := by
        simp [replace_iface_value, hkq]
      rw [hrepl]
      refine ⟨rfl, ?_⟩
      simp only [parse_config]
      rw [cfg_get_cons]
      have habs : rest.any (fun l => rust_trim l == "\"iface\"") = false := by
        rw [hkq] at hnr
        exact hnr
      have hnone := cfg_get_parse_absent "\"iface\"" (by decide) rest hwf habs
      have hnorm : trim_quotes "\"iface\"" = "iface" := by decide
      rw [hnorm] at hnone
      rw [hnone]
      have hkey : trim_quotes (rust_trim k) = "iface" := by
        rw [hkq]; decide
      simp [hkey]
    · have hvq : rust_trim v ≠ "\"iface\"" := by
        intro hcon
        rw [hcon] at hv
        simp [config_keys] at hv
      rw [replace_iface_value_step X k v rest hkq hvq]
      have hrest : rest.any (fun l => rust_trim l == "\"iface\"") = true := by
        simp only [List.any_cons, Bool.or_eq_true, beq_iff_eq] at hany
        rcases hany with h1 | h2 | h3
        · exact absurd h1 hkq
        · exact absurd h2 hvq
        · exact h3
      obtain ⟨hfound, hget⟩ := ih hwf hrest
      refine ⟨hfound, ?_⟩
      simp only [parse_config]
      rw [cfg_get_cons, hget]
      rfl



/-- A line whose trim is not a configuration key never counts for one. -/
theorem key_count_cons_not_key {l : String} (q : String)
    (hq : config_keys.contains q = true)
    (hl : config_keys.contains (rust_trim l) = false) (L : List String) :
    key_count q (l :: L) = key_count q L := by
  unfold key_count
  have hne : (rust_trim l == q) = false := by
    simp only [beq_eq_false_iff_ne, ne_eq]
    intro hcon
    rw [hcon] at hl
    rw [hl] at hq
    cases hq
  simp [List.filter_cons, hne]

/-- Rewriting the `iface` value does not change any key's line count. -/
theorem key_count_replace (X : String)
    (hXk : config_keys.contains (rust_trim X) = false) :
    ∀ L, wf_config L = true → ∀ q, config_keys.contains q = true →
      key_count q (replace_iface_value X L).1 = key_count q L := by
  refine config_lines_induction _ (by intro _ _ _; rfl) ?_ ?_
  · intro l h
    simp [wf_config] at h
  · intro k v rest ih h q hq
    obtain ⟨hk, hv, hnr, hwf⟩ := wf_config_cons h
    by_cases hkq : rust_trim k = "\"iface\""
    · have hrepl : replace_iface_value X (k :: v :: rest)
          = (k :: X :: rest, true) := by
        simp [replace_iface_value, hkq]
      rw [hrepl]
      show key_count q (k :: X :: rest) = key_count q (k :: v :: rest)
      unfold key_count
      simp only [List.filter_cons]
      have hX : (rust_trim X == q) = false := by
        simp only [beq_eq_false_iff_ne, ne_eq]
        intro hcon; rw [hcon] at hXk; rw [hXk] at hq; cases hq
      have hveq : (rust_trim v == q) = false := by
        simp only [beq_eq_false_iff_ne, ne_eq]
        intro hcon; rw [hcon] at hv; rw [hv] at hq; cases hq
      simp [hX, hveq]
    · have hvq : rust_trim v ≠ "\"iface\"" := by
        intro hcon
        rw [hcon] at hv
        simp [config_keys] at hv
      rw [replace_iface_value_step X k v rest hkq hvq]
      show key_count q (k :: v :: (replace_iface_value X rest).1)
          = key_count q (k :: v :: rest)
      unfold key_count
      simp only [List.filter_cons]
      have := ih hwf q hq
      unfold key_count at this
      by_cases h1 : (rust_trim k == q) <;> by_cases h2 : (rust_trim v == q) <;>
        simp [h1, h2, this]

/-- Rewriting the `iface` value keeps the file well-formed. -/
theorem wf_config_replace (X : String)
    (hXk : config_keys.contains (rust_trim X) = false) :
    ∀ L, wf_config L = true →
      wf_config (replace_iface_value X L).1 = true := by
  refine config_lines_induction _ (by intro _; rfl) ?_ ?_
  · intro l h
    simp [wf_config] at h
  · intro k v rest ih h
    obtain ⟨hk, hv, hnr, hwf⟩ := wf_config_cons h
    by_cases hkq : rust_trim k = "\"iface\""
    · have hrepl : replace_iface_value X (k :: v :: rest)
          = (k :: X :: rest, true) := by
        simp [replace_iface_value, hkq]
      rw [hrepl]
      show wf_config (k :: X :: rest) = true
      simp only [wf_config, Bool.and_eq_true, Bool.not_eq_true']
      exact ⟨⟨⟨hk, hXk⟩, hnr⟩, hwf⟩
    · have hvq : rust_trim v ≠ "\"iface\"" := by
        intro hcon
        rw [hcon] at hv
        simp [config_keys] at hv
      rw [replace_iface_value_step X k v rest hkq hvq]
      show wf_config (k :: v :: (replace_iface_value X rest).1) = true
      simp only [wf_config, Bool.and_eq_true, Bool.not_eq_true']
      refine ⟨⟨⟨hk, hv⟩, ?_⟩, ih hwf⟩
      -- the rewritten tail still has no second line for this key
      have hcnt : key_count (rust_trim k) (replace_iface_value X rest).1
          = key_count (rust_trim k) rest := key_count_replace X hXk rest hwf _ hk
      have hzero : key_count (rust_trim k) rest = 0 :=
        (key_count_eq_zero _ _).mpr hnr
      rw [hzero] at hcnt
      exact (key_count_eq_zero _ _).mp hcnt

/-- Appending a fresh key/value pair to a well-formed file keeps it
well-formed. -/
theorem wf_config_append_pair (q d : String) (hqt : rust_trim q = q)
    (hq : config_keys.contains q = true)
    (hd : config_keys.contains (rust_trim d) = false) :
    ∀ M, wf_config M = true →
      M.any (fun l => rust_trim l == q) = false →
      wf_config (M ++ [q, d]) = true := by
  refine config_lines_induction _ ?_ ?_ ?_
  · intro _ _
    simp only [List.nil_append, wf_config, hqt, Bool.and_eq_true,
      Bool.not_eq_true', List.any_nil, and_true]
    exact ⟨hq, hd⟩
  · intro l h
    simp [wf_config] at h
  · intro k v rest ih h habs
    obtain ⟨hk, hv, hnr, hwf⟩ := wf_config_cons h
    simp only [List.any_cons, Bool.or_eq_false_iff] at habs
    obtain ⟨hkq, hvq, hrest⟩ := habs
    simp only [List.cons_append, wf_config, Bool.and_eq_true,
      Bool.not_eq_true', List.append_eq]
    refine ⟨⟨⟨hk, hv⟩, ?_⟩, ih hwf hrest⟩
    rw [List.any_append]
    simp only [hnr, Bool.false_or]
    have h1 : (rust_trim q == rust_trim k) = false := by
      rw [hqt]
      simp only [beq_eq_false_iff_ne, ne_eq]
      intro hcon
      rw [← hcon] at hkq
      simp at hkq
    have h2 : (rust_trim d == rust_trim k) = false := by
      simp only [beq_eq_false_iff_ne, ne_eq]
      intro hcon
      rw [hcon] at hd
      rw [hd] at hk
      cases hk
    simp [List.any_cons, h1, h2]



/-- Any key with at least one line in a well-formed file has exactly one. -/
theorem wf_config_key_count_of_any {q : String} {L : List String}
    (hq : config_keys.contains q = true) (hwf : wf_config L = true)
    (hany : L.any (fun l => rust_trim l == q) = true) :
    key_count q L = 1 := by
  have hle := wf_config_key_count_le_one L hwf q hq
  have hne : key_count q L ≠ 0 := by
    rw [Ne, key_count_eq_zero, hany]
    simp
  omega

/-- First stage of `update_config_iface`: after the scan (and the append of
a fresh `"iface"` pair when the scan found nothing) the file is
well-formed, binds `iface` to the trimmed new value, holds exactly one
`"iface"` key line, and leaves every other key's lines untouched. -/
theorem iface_stage (L : List String) (X : String) (M : List String)
    (hwf : wf_config L = true)
    (hXk : config_keys.contains (rust_trim X) = false)
    (hM : M = (if (replace_iface_value X L).2 then (replace_iface_value X L).1
               else (replace_iface_value X L).1 ++ ["\"iface\"", X])) :
    wf_config M = true ∧
    cfg_get (parse_config M) "iface" = some (rust_trim X) ∧
    key_count "\"iface\"" M = 1 ∧
    (∀ q', config_keys.contains q' = true → q' ≠ "\"iface\"" →
      key_count q' M = key_count q' L ∧
      M.any (fun l => rust_trim l == q') = L.any (fun l => rust_trim l == q')) := by
  by_cases hany : L.any (fun l => rust_trim l == "\"iface\"") = true
  · -- the key exists: its value line is rewritten in place
    obtain ⟨hfound, hget⟩ := replace_iface_value_found X L hwf hany
    rw [hfound, if_pos rfl] at hM
    subst hM
    refine ⟨wf_config_replace X hXk L hwf, hget, ?_, ?_⟩
    · rw [key_count_replace X hXk L hwf _ (by decide)]
      exact wf_config_key_count_of_any (by decide) hwf hany
    · intro q' hq' _
      have hcnt := key_count_replace X hXk L hwf q' hq'
      refine ⟨hcnt, ?_⟩
      by_cases hLq : L.any (fun l => rust_trim l == q') = true
      · rw [hLq]
        have : key_count q' (replace_iface_value X L).1 ≠ 0 := by
          rw [hcnt, Ne, key_count_eq_zero, hLq]
          simp
        rw [Ne, key_count_eq_zero] at this
        simp only [Bool.not_eq_false] at this
        exact this
      · have hLq' : L.any (fun l => rust_trim l == q') = false := by
          simpa using hLq
        rw [hLq']
        have : key_count q' (replace_iface_value X L).1 = 0 := by
          rw [hcnt, key_count_eq_zero]
          exact hLq'
        rw [key_count_eq_zero] at this
        exact this
  · -- no iface key line: the scan is the identity and a pair is appended
    have hany' : L.any (fun l => rust_trim l == "\"iface\"") = false := by
      simpa using hany
    rw [replace_iface_value_not_found X L hany'] at hM
    simp only [if_false, Bool.false_eq_true] at hM
    subst hM
    have heven := wf_config_even L hwf
    refine ⟨?_, ?_, ?_, ?_⟩
    · exact wf_config_append_pair "\"iface\"" X (by decide) (by decide)
        hXk L hwf hany'
    · rw [parse_config_append L _ heven]
      have hnorm : trim_quotes (rust_trim "\"iface\"") = "iface" := by decide
      have hp : parse_config ["\"iface\"", X] = [("iface", rust_trim X)] := by
        show (trim_quotes (rust_trim "\"iface\""), rust_trim X)
            :: parse_config [] = [("iface", rust_trim X)]
        rw [hnorm]
        rfl
      rw [hp, cfg_get_append_single]
      simp
    · rw [key_count_append]
      have h0 : key_count "\"iface\"" L = 0 := (key_count_eq_zero _ _).mpr hany'
      have h1 : key_count "\"iface\"" ["\"iface\"", X] = 1 := by
        unfold key_count
        have hXne : (rust_trim X == "\"iface\"") = false := by
          simp only [beq_eq_false_iff_ne, ne_eq]
          intro hcon
          rw [hcon] at hXk
          cases hXk
        have hIf : (rust_trim "\"iface\"" == "\"iface\"") = true := by decide
        simp [List.filter_cons, hXne, hIf]
      omega
    · intro q' hq' hne
      have hpair : key_count q' ["\"iface\"", X] = 0 := by
        unfold key_count
        have h1 : (rust_trim "\"iface\"" == q') = false := by
          simp only [beq_eq_false_iff_ne, ne_eq]
          intro hcon
          rw [show rust_trim "\"iface\"" = "\"iface\"" from by decide] at hcon
          exact hne hcon.symm
        have h2 : (rust_trim X == q') = false := by
          simp only [beq_eq_false_iff_ne, ne_eq]
          intro hcon
          rw [hcon] at hXk
          rw [hXk] at hq'
          cases hq'
        simp [List.filter_cons, h1, h2]
      constructor
      · rw [key_count_append, hpair]
        omega
      · rw [List.any_append]
        have h3 : (["\"iface\"", X].any fun l => rust_trim l == q') = false := by
          rw [← key_count_eq_zero]
          exact hpair
        rw [h3, Bool.or_false]



/-- One backfill step of `update_config_iface`: when the key `q` already has
a line nothing changes, otherwise the pair `q`/`d` is appended; in both
cases the file stays well-formed, ends up with exactly one `q` key line
(when it had at most one), binds the stripped key to the default when it was
absent, and every other key's lines and bindings are untouched. -/
theorem backfill_stage (q d : String) (hqt : rust_trim q = q)
    (hq : config_keys.contains q = true)
    (hd : config_keys.contains (rust_trim d) = false)
    (M S : List String) (hwf : wf_config M = true)
    (hS : S = (if M.any (fun l => rust_trim l == q) then M else M ++ [q, d])) :
    wf_config S = true ∧
    key_count q S = 1 ∧
    (∀ q', config_keys.contains q' = true → q' ≠ q →
      key_count q' S = key_count q' M ∧
      S.any (fun l => rust_trim l == q') = M.any (fun l => rust_trim l == q')) ∧
    (M.any (fun l => rust_trim l == q) = false →
      cfg_get (parse_config S) (trim_quotes q) = some (rust_trim d)) ∧
    (∀ k', k' ≠ trim_quotes q →
      cfg_get (parse_config S) k' = cfg_get (parse_config M) k') := by
  have hpair_q : key_count q [q, d] = 1 := by
    unfold key_count
    have h1 : (rust_trim q == q) = true := by rw [hqt]; simp
    have h2 : (rust_trim d == q) = false := by
      simp only [beq_eq_false_iff_ne, ne_eq]
      intro hcon
      rw [hcon] at hd
      rw [hd] at hq
      cases hq
    simp [List.filter_cons, h1, h2]
  have hpair_other : ∀ q', config_keys.contains q' = true → q' ≠ q →
      key_count q' [q, d] = 0 := by
    intro q' hq' hne
    unfold key_count
    have h1 : (rust_trim q == q') = false := by
      rw [hqt]
      simp only [beq_eq_false_iff_ne, ne_eq]
      exact fun hcon => hne hcon.symm
    have h2 : (rust_trim d == q') = false := by
      simp only [beq_eq_false_iff_ne, ne_eq]
      intro hcon
      rw [hcon] at hd
      rw [hd] at hq'
      cases hq'
    simp [List.filter_cons, h1, h2]
  by_cases hany : M.any (fun l => rust_trim l == q) = true
  · rw [hany, if_pos rfl] at hS
    subst hS
    refine ⟨hwf, wf_config_key_count_of_any hq hwf hany, ?_, ?_, ?_⟩
    · intro q' _ _
      exact ⟨rfl, rfl⟩
    · intro hcon
      rw [hcon] at hany
      cases hany
    · intro k' _
      rfl
  · have hany' : M.any (fun l => rust_trim l == q) = false := by
      simpa using hany
    rw [hany'] at hS
    simp only [Bool.false_eq_true, if_false] at hS
    subst hS
    have heven := wf_config_even M hwf
    have hparse : parse_config (M ++ [q, d])
        = parse_config M ++ [(trim_quotes q, rust_trim d)] := by
      rw [parse_config_append M _ heven]
      congr 1
      show (trim_quotes (rust_trim q), rust_trim d) :: parse_config []
          = [(trim_quotes q, rust_trim d)]
      rw [hqt]
      rfl
    refine ⟨wf_config_append_pair q d hqt hq hd M hwf hany', ?_, ?_, ?_, ?_⟩
    · rw [key_count_append, hpair_q, (key_count_eq_zero _ _).mpr hany']
    · intro q' hq' hne
      constructor
      · rw [key_count_append, hpair_other q' hq' hne]
        omega
      · rw [List.any_append]
        have h3 : ([q, d].any fun l => rust_trim l == q') = false := by
          rw [← key_count_eq_zero]
          exact hpair_other q' hq' hne
        rw [h3, Bool.or_false]
    · intro _
      rw [hparse, cfg_get_append_single]
      simp
    · intro k' hne
      rw [hparse, cfg_get_append_single]
      have : (trim_quotes q == k') = false := by
        simp only [beq_eq_false_iff_ne, ne_eq]
        exact fun hcon => hne hcon.symm
      rw [this]
      rfl



/-- Combined effect of `update_config_iface` on a well-formed file: the
result is well-formed, binds `iface` to the trimmed new value, holds each
of the four keys on exactly one line, and binds each key that was absent to
its default. -/
theorem update_config_iface_master (L : List String) (X : String)
    (hwf : wf_config L = true)
    (hXk : config_keys.contains (rust_trim X) = false) :
    wf_config (update_config_iface L X) = true ∧
    cfg_get (parse_config (update_config_iface L X)) "iface"
      = some (rust_trim X) ∧
    (∀ q, config_keys.contains q = true →
      key_count q (update_config_iface L X) = 1) ∧
    (L.any (fun l => rust_trim l == "\"allowed-ports\"") = false →
      cfg_get (parse_config (update_config_iface L X)) "allowed-ports"
        = some "80, 443") ∧
    (L.any (fun l => rust_trim l == "\"blocked-ips\"") = false →
      cfg_get (parse_config (update_config_iface L X)) "blocked-ips"
        = some "") ∧
    (L.any (fun l => rust_trim l == "\"blocked-countries\"") = false →
      cfg_get (parse_config (update_config_iface L X)) "blocked-countries"
        = some "") := by
  set R := replace_iface_value X L with hR
  set M1 := if R.2 then R.1 else R.1 ++ ["\"iface\"", X] with hM1
  set M2 := if M1.any (fun l => rust_trim l == "\"allowed-ports\"") then M1
            else M1 ++ ["\"allowed-ports\"", "80, 443"] with hM2
  set M3 := if M2.any (fun l => rust_trim l == "\"blocked-ips\"") then M2
            else M2 ++ ["\"blocked-ips\"", ""] with hM3
  set M4 := if M3.any (fun l => rust_trim l == "\"blocked-countries\"") then M3
            else M3 ++ ["\"blocked-countries\"", ""] with hM4
  have hupd : update_config_iface L X = M4 := by
    rw [hM4, hM3, hM2, hM1, hR]
    rfl
  obtain ⟨h1wf, h1get, h1cnt, h1rest⟩ :=
    iface_stage L X M1 hwf hXk (by rw [hM1, hR])
  obtain ⟨h2wf, h2cnt, h2rest, h2new, h2pres⟩ :=
    backfill_stage "\"allowed-ports\"" "80, 443" (by decide) (by decide)
      (by decide) M1 M2 h1wf (by rw [hM2])
  obtain ⟨h3wf, h3cnt, h3rest, h3new, h3pres⟩ :=
    backfill_stage "\"blocked-ips\"" "" (by decide) (by decide)
      (by decide) M2 M3 h2wf (by rw [hM3])
  obtain ⟨h4wf, h4cnt, h4rest, h4new, h4pres⟩ :=
    backfill_stage "\"blocked-countries\"" "" (by decide) (by decide)
      (by decide) M3 M4 h3wf (by rw [hM4])
  rw [hupd]
  refine ⟨h4wf, ?_, ?_, ?_, ?_, ?_⟩
  · rw [h4pres "iface" (by decide), h3pres "iface" (by decide),
      h2pres "iface" (by decide)]
    exact h1get
  · intro q hq
    rcases mem_config_keys hq with rfl | rfl | rfl | rfl
    · rw [(h4rest _ (by decide) (by decide)).1,
        (h3rest _ (by decide) (by decide)).1,
        (h2rest _ (by decide) (by decide)).1]
      exact h1cnt
    · rw [(h4rest _ (by decide) (by decide)).1,
        (h3rest _ (by decide) (by decide)).1]
      exact h2cnt
    · rw [(h4rest _ (by decide) (by decide)).1]
      exact h3cnt
    · exact h4cnt
  · intro habs
    have habs1 : M1.any (fun l => rust_trim l == "\"allowed-ports\"")
        = false := by
      rw [(h1rest _ (by decide) (by decide)).2]
      exact habs
    have := h2new habs1
    rw [show trim_quotes "\"allowed-ports\"" = "allowed-ports" from by decide,
      show rust_trim "80, 443" = "80, 443" from by decide] at this
    rw [h4pres "allowed-ports" (by decide), h3pres "allowed-ports" (by decide)]
    exact this
  · intro habs
    have habs2 : M2.any (fun l => rust_trim l == "\"blocked-ips\"")
        = false := by
      rw [(h2rest _ (by decide) (by decide)).2,
        (h1rest _ (by decide) (by decide)).2]
      exact habs
    have := h3new habs2
    rw [show trim_quotes "\"blocked-ips\"" = "blocked-ips" from by decide,
      show rust_trim "" = "" from by decide] at this
    rw [h4pres "blocked-ips" (by decide)]
    exact this
  · intro habs
    have habs3 : M3.any (fun l => rust_trim l == "\"blocked-countries\"")
        = false := by
      rw [(h3rest _ (by decide) (by decide)).2,
        (h2rest _ (by decide) (by decide)).2,
        (h1rest _ (by decide) (by decide)).2]
      exact habs
    have := h4new habs3
    rw [show trim_quotes "\"blocked-countries\"" = "blocked-countries" from
        by decide,
      show rust_trim "" = "" from by decide] at this
    exact this



/-- C5: config round-trip on a well-formed file (§6 format: alternating
quoted-key and value lines, keys unique, values not key-like).  Writing
interface `X` (a trim-stable, non-key string, as every real interface name
is) and parsing returns `X` for `iface`; each of the three other keys that
is absent is backfilled with its default and parses to that default; and
updating again never duplicates a key: all four keys sit on exactly one
line each after one update and after two. -/
theorem C5_config_roundtrip (L : List String) (X Y : String)
    (hwf : wf_config L = true) (hX : rust_trim X = X)
    (hXk : config_keys.contains X = false)
    (hYk : config_keys.contains (rust_trim Y) = false) :
    cfg_get (parse_config (update_config_iface L X)) "iface" = some X ∧
    (L.any (fun l => rust_trim l == "\"allowed-ports\"") = false →
      cfg_get (parse_config (update_config_iface L X)) "allowed-ports"
        = some "80, 443") ∧
    (L.any (fun l => rust_trim l == "\"blocked-ips\"") = false →
      cfg_get (parse_config (update_config_iface L X)) "blocked-ips"
        = some "") ∧
    (L.any (fun l => rust_trim l == "\"blocked-countries\"") = false →
      cfg_get (parse_config (update_config_iface L X)) "blocked-countries"
        = some "") ∧
    (∀ q, config_keys.contains q = true →
      key_count q (update_config_iface L X) = 1 ∧
      key_count q (update_config_iface (update_config_iface L X) Y) = 1) := by
  have hXk' : config_keys.contains (rust_trim X) = false := by
    rw [hX]; exact hXk
  obtain ⟨h1wf, h1get, h1cnt, h1a, h1b, h1c⟩ :=
    update_config_iface_master L X hwf hXk'
  obtain ⟨_, _, h2cnt, _, _, _⟩ :=
    update_config_iface_master (update_config_iface L X) Y h1wf hYk
  rw [hX] at h1get
  exact ⟨h1get, h1a, h1b, h1c, fun q hq => ⟨h1cnt q hq, h2cnt q hq⟩⟩

/-- Witness for C5 on the two-line file `"iface"`/`eth0`, writing `wlan0`
and then `eth1`. -/
theorem C5_witness :
    cfg_get (parse_config (update_config_iface ["\"iface\"", "eth0"] "wlan0"))
      "iface" = some "wlan0" ∧
    cfg_get (parse_config (update_config_iface ["\"iface\"", "eth0"] "wlan0"))
      "allowed-ports" = some "80, 443" ∧
    key_count "\"iface\""
      (update_config_iface
        (update_config_iface ["\"iface\"", "eth0"] "wlan0") "eth1") = 1 := by
  obtain ⟨hg, ha, hb, hc, hcnt⟩ :=
    C5_config_roundtrip ["\"iface\"", "eth0"] "wlan0" "eth1"
      (by decide) (by decide) (by decide) (by decide)
  exact ⟨hg, ha (by decide), (hcnt "\"iface\"" (by decide)).2⟩

end Firewall
